import Mathlib

/-!
Verification development for the IEP minutes tracker (app.py / sheets_db.py).

The repository's aggregation core works over three tabular collections
(staff, students, session logs) read from a spreadsheet.  We embed that
core shallowly:

* spreadsheet cells carry either a number, a string, or a NaN, modelled by
  `CellVal`; `pyInt` models Python's `int(...)` coercion (`none` = raises);
* a pandas row (`Series`) is an association list `PyRow`, so that a column
  can genuinely be absent, matching `col in student.index`;
* log rows as produced by `SheetsDB.get_logs` have `minutes` coerced to an
  integer and `date` coerced to a calendar date or `NaT`; we model dates as
  proleptic-Gregorian day numbers (`Option Int`, `none` = `NaT`);
* the worksheet mutation helpers (`_find_row` + `update_cell` /
  `delete_rows`) are modelled as record-level list operations;
* Python dicts keyed by staff name are association lists whose keys are
  kept unique by construction, exactly as a dict comprehension does.
-/

/-- A spreadsheet / pandas cell value: an integer, a string, or NaN. -/
inductive CellVal where
  | int (n : Int)
  | str (s : String)
  | nan
deriving DecidableEq, Repr

/-- Digits-only string to natural number, `none` if any char is not a digit
or the list is empty.  Helper for `pyStrToInt`. -/
def digitsToNat : List Char → Option Nat
  | [] => none
  | cs => cs.foldl
      (fun acc c => match acc with
        | none => none
        | some n => if c.isDigit then some (n * 10 + (c.toNat - 48)) else none)
      (some 0)

/-- Strip leading and trailing whitespace, as Python's `int(str)` does. -/
def trimWS (cs : List Char) : List Char :=
  ((cs.dropWhile (fun c => c.isWhitespace)).reverse.dropWhile
    (fun c => c.isWhitespace)).reverse

/-- Python's `int(...)` on a string: optional sign then decimal digits,
surrounding whitespace ignored; `none` models a raised `ValueError`. -/
def pyStrToInt (s : String) : Option Int :=
  match trimWS s.data with
  | '-' :: rest => (digitsToNat rest).map (fun n => -(n : Int))
  | '+' :: rest => (digitsToNat rest).map (fun n => (n : Int))
  | cs => (digitsToNat cs).map (fun n => (n : Int))

/-- Python's `int(...)` on a cell value; `none` models a raised exception
(`int(NaN)` and `int("abc")` raise). -/
def pyInt : CellVal → Option Int
  | .int n => some n
  | .str s => pyStrToInt s
  | .nan => none

/-- A pandas row (`Series`): association list from column name to value. -/
def PyRow := List (String × CellVal)

/-- `row[col]` guarded by `col in row.index`: first matching column. -/
def rowGet? (row : PyRow) (col : String) : Option CellVal :=
  match row.find? (fun p => p.1 == col) with
  | some p => some p.2
  | none => none

/-- The fixed subject enumeration `SUBJECTS` from app.py. -/
def SUBJECTS : List String := ["Math", "English", "Task Completion"]

/-- The `GOAL_COL` dict lookup `GOAL_COL.get(subject, "goal_math")`. -/
def GOAL_COL (subject : String) : String :=
  if subject = "Math" then "goal_math"
  else if subject = "English" then "goal_english"
  else if subject = "Task Completion" then "goal_task_completion"
  else "goal_math"

/-- `safe_goal(student, subject)` from app.py: read the goal column for the
subject (defaulting the column name to `goal_math`), treat a missing column
as 60, and fall back to 60 when `int(val)` raises. -/
def safe_goal (student : PyRow) (subject : String) : Int :=
  let col := GOAL_COL subject
  match rowGet? student col with
  | none => 60
  | some v => (pyInt v).getD 60

/-- A session-log row as produced by `SheetsDB.get_logs`: ids numeric or
null, `minutes` coerced to an integer (malformed becomes 0 upstream),
`date` a calendar day number or `none` (= `NaT`). -/
structure LogRec where
  id : Option Int
  student_id : Option Int
  subject : String
  staff : String
  minutes : Int
  date : Option Int
  note : String
deriving DecidableEq, Repr

/-- `logs_in_range(logs_df, start, end)`: keep rows whose date is a valid
date within `[s, e]`; a `NaT` date compares false and is dropped. -/
def logs_in_range (logs : List LogRec) (s e : Int) : List LogRec :=
  logs.filter (fun r =>
    match r.date with
    | some d => decide (s ≤ d ∧ d ≤ e)
    | none => false)

/-- The rows examined by `student_minutes` / `staff_breakdown`: window
filter, then `student_id == sid  and  subject == subj`. -/
def matchingLogs (logs : List LogRec) (sid : Int) (subj : String) (s e : Int) :
    List LogRec :=
  (logs_in_range logs s e).filter
    (fun r => decide (r.student_id = some sid ∧ r.subject = subj))

/-- `student_minutes(logs_df, student_id, subject, start, end)`: sum of
`minutes` over the matching rows (0 when nothing matches). -/
def student_minutes (logs : List LogRec) (sid : Int) (subj : String)
    (s e : Int) : Int :=
  ((matchingLogs logs sid subj s e).map (fun r => r.minutes)).sum

/-- One step of the dict comprehension `{n: 0 for n in roster}`: add the
key `n` with value 0 unless it is already a key. -/
def initStep (acc : List (String × Int)) (n : String) : List (String × Int) :=
  if acc.any (fun p => p.1 == n) then acc else acc ++ [(n, 0)]

/-- The Python dict comprehension `{n: 0 for n in roster}`: one entry per
distinct name, first occurrence kept, value 0. -/
def pyDictInit (names : List String) : List (String × Int) :=
  names.foldl initStep []

/-- `result[k] += m` on a dict represented as an association list: bump
the entry whose key is `k` (there is at most one by construction). -/
def bumpKey : List (String × Int) → String → Int → List (String × Int)
  | [], _, _ => []
  | p :: t, k, m => (if p.1 == k then (p.1, p.2 + m) else p) :: bumpKey t k m

/-- One iteration of `staff_breakdown`'s row loop:
`if row["staff"] in result: result[row["staff"]] += int(row["minutes"])`. -/
def bdStep (acc : List (String × Int)) (r : LogRec) : List (String × Int) :=
  if acc.any (fun p => p.1 == r.staff) then bumpKey acc r.staff r.minutes
  else acc

/-- `staff_breakdown(logs_df, student_id, subject, start, end, staff_df)`:
initialise a bucket per roster name, then add each matching row's minutes
to its staff's bucket when that staff name is a key (`in result`). -/
def staff_breakdown (logs : List LogRec) (sid : Int) (subj : String)
    (s e : Int) (roster : List String) : List (String × Int) :=
  (matchingLogs logs sid subj s e).foldl bdStep (pyDictInit roster)

/-- Dict read `d[k]` (0 for an absent key; the theorems only read keys that
are present). -/
def dictGet : List (String × Int) → String → Int
  | [], _ => 0
  | p :: t, k => if p.1 == k then p.2 else dictGet t k

/-- The key list of an association-list dict. -/
def dictKeys (l : List (String × Int)) : List String :=
  l.map (fun p => p.1)

/-- `sum(d.values())`. -/
def sumValues (l : List (String × Int)) : Int :=
  (l.map (fun p => p.2)).sum

/-- The grand total of `render_summary_row`: `sub["minutes"].sum()` over
the window-filtered logs, all students and subjects together. -/
def summaryGrand (logs : List LogRec) (s e : Int) : Int :=
  ((logs_in_range logs s e).map (fun r => r.minutes)).sum

/-- Sum of minutes of the rows of `logs` satisfying `p` (helper used to
state the unrostered-minutes difference). -/
def minutesWhere (logs : List LogRec) (p : LogRec → Bool) : Int :=
  ((logs.filter p).map (fun r => r.minutes)).sum

/-! ### Calendar arithmetic (`datetime.date` as day numbers) -/

/-- Day number (days since 1970-01-01) of the civil date `y-m-d`,
proleptic Gregorian. -/
def daysFromCivil (y m d : Int) : Int :=
  let yy := if m ≤ 2 then y - 1 else y
  let era := yy / 400
  let yoe := yy - era * 400
  let mp := (m + 9) % 12
  let doy := (153 * mp + 2) / 5 + d - 1
  let doe := yoe * 365 + yoe / 4 - yoe / 100 + doy
  era * 146097 + doe - 719468

/-- Inverse of `daysFromCivil`: day number back to `(year, month, day)`. -/
def civilFromDays (z0 : Int) : Int × Int × Int :=
  let z := z0 + 719468
  let era := z / 146097
  let doe := z - era * 146097
  let yoe := (doe - doe / 1460 + doe / 36524 - doe / 146097) / 365
  let y := yoe + era * 400
  let doy := doe - (365 * yoe + yoe / 4 - yoe / 100)
  let mp := (5 * doy + 2) / 153
  let d := doy - (153 * mp + 2) / 5 + 1
  let m := if mp < 10 then mp + 3 else mp - 9
  (if m ≤ 2 then y + 1 else y, m, d)

/-- Python's `date.weekday()`: 0 = Monday.  Day 0 (1970-01-01) was a
Thursday. -/
def weekday (d : Int) : Int := (d + 3) % 7

/-- One entry of `get_month_weeks_for`: label, Monday start, Sunday end. -/
structure Week where
  label : String
  start : Int
  stop : Int
deriving DecidableEq, Repr

/-- The label `f"{mon.month}/{mon.day}–{fri.month}/{fri.day}"`. -/
def weekLabel (mon : Int) : String :=
  let fri := mon + 4
  toString (civilFromDays mon).2.1 ++ "/" ++ toString (civilFromDays mon).2.2
    ++ "–" ++ toString (civilFromDays fri).2.1 ++ "/"
    ++ toString (civilFromDays fri).2.2

/-- The week appended for a Monday `mon`: `(label, mon, mon + 6 days)`. -/
def mkWeek (mon : Int) : Week :=
  { label := weekLabel mon, start := mon, stop := mon + 6 }

/-- The `while cur <= last` loop of `get_month_weeks_for`, stepping by
7 days. -/
def weeksFrom (cur last : Int) : List Week :=
  if h : cur ≤ last then mkWeek cur :: weeksFrom (cur + 7) last else []
termination_by (last + 1 - cur).toNat
decreasing_by simp_wf; omega

/-- `get_month_weeks_for(year, month)` from app.py: start from the Monday
of the week containing the 1st, emit weeks while the Monday is on or
before the last day of the month. -/
def get_month_weeks_for (year month : Int) : List Week :=
  let first := daysFromCivil year month 1
  let last :=
    (if month = 12 then daysFromCivil (year + 1) 1 1
     else daysFromCivil year (month + 1) 1) - 1
  weeksFrom (first - weekday first) last

/-! ### Record-store collections and mutation operations -/

/-- A staff row: id, display name, color. -/
structure StaffRec where
  id : Int
  name : String
  color : String
deriving DecidableEq, Repr

/-- A student row as produced by `SheetsDB.get_students` (goal columns
coerced to integers). -/
structure StudentRec where
  id : Int
  name : String
  grade : String
  active_subject : String
  goal_math : Int
  goal_english : Int
  goal_task_completion : Int
deriving DecidableEq, Repr

/-- The pandas `Series` view of a student row, as `safe_goal` reads it. -/
def StudentRec.toRow (s : StudentRec) : PyRow :=
  [("id", CellVal.int s.id), ("name", CellVal.str s.name),
   ("grade", CellVal.str s.grade),
   ("active_subject", CellVal.str s.active_subject),
   ("goal_math", CellVal.int s.goal_math),
   ("goal_english", CellVal.int s.goal_english),
   ("goal_task_completion", CellVal.int s.goal_task_completion)]

/-- The three worksheets of one `SheetsDB`. -/
structure DBState where
  staff : List StaffRec
  students : List StudentRec
  logs : List LogRec
deriving DecidableEq, Repr

/-- `_find_row`: 0-based index of the first record matching `p`. -/
def findRow? {α : Type} (p : α → Bool) : List α → Option Nat
  | [] => none
  | a :: as => if p a then some 0 else (findRow? p as).map (fun i => i + 1)

/-- Replace the record at index `i` by `f` of it (a row-targeted
`update_cell` batch). -/
def setAt {α : Type} : List α → Nat → (α → α) → List α
  | [], _, _ => []
  | a :: as, 0, f => f a :: as
  | a :: as, n + 1, f => a :: setAt as n f

/-- `delete_rows` at 0-based record index `i`. -/
def eraseAt {α : Type} : List α → Nat → List α
  | [], _ => []
  | _ :: as, 0 => as
  | a :: as, n + 1 => a :: eraseAt as n

/-- `SheetsDB.delete_student`: find the first student row with the given
id and delete it; no-op when absent.  Logs and staff are untouched. -/
def delete_student (st : DBState) (sid : Int) : DBState :=
  match findRow? (fun r => r.id == sid) st.students with
  | some i => { st with students := eraseAt st.students i }
  | none => st

/-- The per-record edit performed by `SheetsDB.update_student` once the
row is found: optional rename (skipped for a falsy name), then one cell
write per recognised subject in `goals`. -/
def applyStudentEdit (newName : Option String) (goals : List (String × Int))
    (r : StudentRec) : StudentRec :=
  let r1 :=
    match newName with
    | some nm => if nm = "" then r else { r with name := nm }
    | none => r
  goals.foldl
    (fun r p =>
      if p.1 = "Math" then { r with goal_math := p.2 }
      else if p.1 = "English" then { r with goal_english := p.2 }
      else if p.1 = "Task Completion" then { r with goal_task_completion := p.2 }
      else r)
    r1

/-- `SheetsDB.update_student(sid, new_name, goals)`: returns unchanged
when no student row has the id. -/
def update_student (st : DBState) (sid : Int) (newName : Option String)
    (goals : List (String × Int)) : DBState :=
  match findRow? (fun r => r.id == sid) st.students with
  | none => st
  | some i =>
      { st with students := setAt st.students i (applyStudentEdit newName goals) }

/-- `SheetsDB.update_student_subject(sid, subject)`: returns unchanged
when no student row has the id. -/
def update_student_subject (st : DBState) (sid : Int) (subject : String) :
    DBState :=
  match findRow? (fun r => r.id == sid) st.students with
  | none => st
  | some i =>
      let f := fun (r : StudentRec) => { r with active_subject := subject }
      { st with students := setAt st.students i f }

/-- The per-log-row rewrite of a staff rename: a row whose staff cell is
the old name gets the new name written into that one cell. -/
def renameStaffRow (old nw : String) (r : LogRec) : LogRec :=
  if r.staff == old then { r with staff := nw } else r

/-- `SheetsDB.update_staff_names` for a one-entry `new_names` dict
`{sid: newName}`: write the staff row's name cell, then, when the old
name is non-empty and different, rewrite the staff cell of every log row
that carried the old name. -/
def update_staff_names_one (st : DBState) (sid : Int) (newName : String) :
    DBState :=
  let old := (((st.staff.reverse).find? (fun r => r.id == sid)).map
    (fun r => r.name)).getD ""
  let staff1 :=
    match findRow? (fun r => r.id == sid) st.staff with
    | some i => setAt st.staff i (fun r => { r with name := newName })
    | none => st.staff
  let logs1 :=
    if old != "" && old != newName then st.logs.map (renameStaffRow old newName)
    else st.logs
  { st with staff := staff1, logs := logs1 }

/-- `_next_id`: `max(ids, default=0) + 1`, i.e. 1 on an empty collection,
otherwise one more than the maximum existing id. -/
def nextId (ids : List Int) : Int :=
  match ids with
  | [] => 1
  | a :: as => (as.foldl max a) + 1

/-- An append through `_next_id`: the collection with the fresh id added,
and the id that was assigned. -/
def pyAppend (ids : List Int) : List Int × Int :=
  (ids ++ [nextId ids], nextId ids)

/-- Deletion by id (first matching row), as `delete_student` does. -/
def pyDelete (ids : List Int) (v : Int) : List Int :=
  match findRow? (fun i => i == v) ids with
  | some i => eraseAt ids i
  | none => ids

/-- The pure rows behind `render_goal_chart`: one row per week of the
month, and per subject the number of students whose minutes in that week
reach their `safe_goal`. -/
def goalChartRows (logs : List LogRec) (students : List StudentRec)
    (year month : Int) : List (String × List (String × Nat)) :=
  (get_month_weeks_for year month).map (fun w =>
    (w.label, SUBJECTS.map (fun subj =>
      (subj, (students.filter (fun stu =>
        decide (safe_goal stu.toRow subj ≤
          student_minutes logs stu.id subj w.start w.stop))).length))))

/-- `get_month_range_for(year, month)` from app.py: first and last day of
the calendar month. -/
def get_month_range_for (year month : Int) : Int × Int :=
  (daysFromCivil year month 1,
   (if month = 12 then daysFromCivil (year + 1) 1 1
    else daysFromCivil year (month + 1) 1) - 1)

/-! ### Lemmas about the week-window builder -/

theorem weeksFrom_pos {cur last : Int} (h : cur ≤ last) :
    weeksFrom cur last = mkWeek cur :: weeksFrom (cur + 7) last := by
  rw [weeksFrom]
  simp [h]

theorem weeksFrom_neg {cur last : Int} (h : ¬ cur ≤ last) :
    weeksFrom cur last = [] := by
  rw [weeksFrom]
  simp [h]

theorem mem_weeksFrom_aux (w : Week) :
    ∀ (n : Nat) (cur last : Int), (last + 1 - cur).toNat ≤ n →
      (w ∈ weeksFrom cur last ↔
        ∃ k : Nat, w = mkWeek (cur + 7 * (k : Int)) ∧ cur + 7 * (k : Int) ≤ last) := by
  intro n
  induction n with
  | zero =>
      intro cur last h
      rw [weeksFrom_neg (by omega)]
      simp only [List.not_mem_nil, false_iff, not_exists, not_and]
      intro k _
      omega
  | succ n ih =>
      intro cur last h
      by_cases hc : cur ≤ last
      · rw [weeksFrom_pos hc]
        simp only [List.mem_cons]
        rw [ih (cur + 7) last (by omega)]
        constructor
        · rintro (rfl | ⟨k, rfl, hk⟩)
          · exact ⟨0, by norm_num, by omega⟩
          · refine ⟨k + 1, ?_, by push_cast at hk ⊢; omega⟩
            congr 1
            push_cast
            ring
        · rintro ⟨k, rfl, hk⟩
          cases k with
          | zero => left; norm_num
          | succ k =>
              right
              refine ⟨k, ?_, by push_cast at hk ⊢; omega⟩
              congr 1
              push_cast
              ring
      · rw [weeksFrom_neg hc]
        simp only [List.not_mem_nil, false_iff, not_exists, not_and]
        intro k _
        omega

theorem mem_weeksFrom (w : Week) (cur last : Int) :
    w ∈ weeksFrom cur last ↔
      ∃ k : Nat, w = mkWeek (cur + 7 * (k : Int)) ∧ cur + 7 * (k : Int) ≤ last :=
  mem_weeksFrom_aux w ((last + 1 - cur).toNat) cur last le_rfl

theorem pairwise_weeksFrom_aux :
    ∀ (n : Nat) (cur last : Int), (last + 1 - cur).toNat ≤ n →
      (weeksFrom cur last).Pairwise (fun a b => a.start < b.start) := by
  intro n
  induction n with
  | zero =>
      intro cur last h
      rw [weeksFrom_neg (by omega)]
      exact List.Pairwise.nil
  | succ n ih =>
      intro cur last h
      by_cases hc : cur ≤ last
      · rw [weeksFrom_pos hc]
        refine List.Pairwise.cons ?_ (ih (cur + 7) last (by omega))
        intro b hb
        rw [mem_weeksFrom] at hb
        obtain ⟨k, rfl, hk⟩ := hb
        show cur < cur + 7 + 7 * (k : Int)
        omega
      · rw [weeksFrom_neg hc]
        exact List.Pairwise.nil

theorem pairwise_weeksFrom (cur last : Int) :
    (weeksFrom cur last).Pairwise (fun a b => a.start < b.start) :=
  pairwise_weeksFrom_aux ((last + 1 - cur).toNat) cur last le_rfl

theorem get_month_weeks_eq (year month : Int) :
    get_month_weeks_for year month =
      weeksFrom ((get_month_range_for year month).1 -
          weekday (get_month_range_for year month).1)
        (get_month_range_for year month).2 := rfl

/-- C8: For every year and month, the month-week builder produces
Monday-start, Sunday-end week windows in chronological order; a
Monday-start week appears in the sequence exactly when it overlaps the
calendar month (so the first and last windows may extend beyond the month
boundary), and each window is labeled by its Monday-to-Friday date span. -/
theorem C8_month_week_builder (year month : Int) :
    (∀ w ∈ get_month_weeks_for year month,
        w.stop = w.start + 6 ∧ weekday w.start = 0 ∧ w.label = weekLabel w.start)
    ∧ (∀ s : Int, weekday s = 0 →
        (mkWeek s ∈ get_month_weeks_for year month ↔
          s ≤ (get_month_range_for year month).2 ∧
            (get_month_range_for year month).1 ≤ s + 6))
    ∧ (get_month_weeks_for year month).Pairwise (fun a b => a.start < b.start) := by
  rw [get_month_weeks_eq]
  set first := (get_month_range_for year month).1 with hfirst
  set last := (get_month_range_for year month).2 with hlast
  refine ⟨?_, ?_, pairwise_weeksFrom _ _⟩
  · intro w hw
    rw [mem_weeksFrom] at hw
    obtain ⟨k, rfl, hk⟩ := hw
    refine ⟨rfl, ?_, rfl⟩
    show (first - (first + 3) % 7 + 7 * (k : Int) + 3) % 7 = 0
    omega
  · intro s hs
    have hs7 : (s + 3) % 7 = 0 := hs
    rw [mem_weeksFrom]
    constructor
    · rintro ⟨k, heq, hk⟩
      have hstart : s = first - weekday first + 7 * (k : Int) :=
        congrArg Week.start heq
      have hwd : 0 ≤ (first + 3) % 7 ∧ (first + 3) % 7 < 7 := by omega
      constructor
      · omega
      · show first ≤ s + 6
        rw [hstart]
        show first ≤ first - (first + 3) % 7 + 7 * (k : Int) + 6
        omega
    · rintro ⟨hle, hge⟩
      have hmf : (first - (first + 3) % 7 + 3) % 7 = 0 := by omega
      have hge2 : first - (first + 3) % 7 ≤ s := by
        show first - (first + 3) % 7 ≤ s
        omega
      obtain ⟨t, ht⟩ : ∃ t : Int, s - (first - (first + 3) % 7) = 7 * t :=
        ⟨(s - (first - (first + 3) % 7)) / 7, by omega⟩
      refine ⟨t.toNat, ?_, ?_⟩
      · show mkWeek s = mkWeek (first - weekday first + 7 * ((t.toNat : Int)))
        congr 1
        show s = first - (first + 3) % 7 + 7 * ((t.toNat : Int))
        omega
      · show first - weekday first + 7 * ((t.toNat : Int)) ≤ last
        show first - (first + 3) % 7 + 7 * ((t.toNat : Int)) ≤ last
        omega

theorem C8_month_week_builder_witness :
    weekday (daysFromCivil 2024 1 1) = 0 ∧
      (mkWeek (daysFromCivil 2024 1 1) ∈ get_month_weeks_for 2024 1 ↔
        daysFromCivil 2024 1 1 ≤ (get_month_range_for 2024 1).2 ∧
          (get_month_range_for 2024 1).1 ≤ daysFromCivil 2024 1 1 + 6) :=
  ⟨by decide, (C8_month_week_builder 2024 1).2.1 (daysFromCivil 2024 1 1) (by decide)⟩

/-- C1 (counterexample): for an unrecognized subject, `safe_goal` does not
return the fixed fallback 60 — it falls back to the `goal_math` column, so
a student with a numeric math goal of 90 gets 90. -/
theorem C1_goal_fallback_counterexample :
    ("Science" ∉ SUBJECTS) ∧
      safe_goal [("goal_math", CellVal.int 90)] ("Science") = 90 ∧
      ¬ safe_goal [("goal_math", CellVal.int 90)] ("Science") = 60 := by
  decide

/-- C1 (amended): `safe_goal` never raises (it is total); when the goal
column selected for the subject is missing from the record, or holds a
value that `int(...)` cannot convert, it returns 60; an unrecognized
subject is treated exactly like `Math` (the `goal_math` column), so it
returns the student's math goal rather than a fixed 60. -/
theorem C1_goal_fallback (student : PyRow) (subject : String) :
    (rowGet? student (GOAL_COL subject) = none → safe_goal student subject = 60)
    ∧ (∀ v, rowGet? student (GOAL_COL subject) = some v → pyInt v = none →
        safe_goal student subject = 60)
    ∧ (subject ∉ SUBJECTS → safe_goal student subject = safe_goal student ("Math")) := by
  refine ⟨?_, ?_, ?_⟩
  · intro h
    simp [safe_goal, h]
  · intro v hv hn
    simp [safe_goal, hv, hn]
  · intro hns
    simp only [SUBJECTS, List.mem_cons, List.mem_singleton, not_or] at hns
    obtain ⟨h1, h2, h3⟩ := hns
    have hcol : GOAL_COL subject = GOAL_COL "Math" := by
      simp [GOAL_COL, h1, h2, h3]
    simp [safe_goal, hcol]

theorem C1_goal_fallback_witness :
    rowGet? [("goal_english", CellVal.str "abc")] (GOAL_COL ("English")) =
        some (CellVal.str "abc")
      ∧ pyInt (CellVal.str "abc") = none
      ∧ safe_goal [("goal_english", CellVal.str "abc")] ("English") = 60 :=
  ⟨by decide, by decide,
    (C1_goal_fallback [("goal_english", CellVal.str "abc")] ("English")).2.1
      (CellVal.str "abc") (by decide) (by decide)⟩

/-- C5: the date-window filter keeps exactly the member rows whose date is
a valid day within `[s, e]` inclusive; a row dated exactly `s` or `e` is
kept, one dated `s - 1` or `e + 1` is excluded, and a row with an
unparseable date (`NaT`) is dropped; the filter is total, so it never
raises. -/
theorem C5_window_inclusivity (logs : List LogRec) (s e : Int) (r : LogRec) :
    (r ∈ logs_in_range logs s e ↔
        r ∈ logs ∧ ∃ d, r.date = some d ∧ s ≤ d ∧ d ≤ e)
    ∧ (s ≤ e → r ∈ logs → r.date = some s ∨ r.date = some e →
        r ∈ logs_in_range logs s e)
    ∧ (r.date = some (s - 1) ∨ r.date = some (e + 1) →
        r ∉ logs_in_range logs s e)
    ∧ (r.date = none → r ∉ logs_in_range logs s e) := by
  have key : ∀ x : LogRec,
      (match x.date with
        | some d => decide (s ≤ d ∧ d ≤ e)
        | none => false) = true ↔ ∃ d, x.date = some d ∧ s ≤ d ∧ d ≤ e := by
    intro x
    cases hx : x.date with
    | none => simp
    | some d => simp
  have hmem : r ∈ logs_in_range logs s e ↔
      r ∈ logs ∧ ∃ d, r.date = some d ∧ s ≤ d ∧ d ≤ e := by
    rw [logs_in_range, List.mem_filter, key r]
  refine ⟨hmem, ?_, ?_, ?_⟩
  · intro hse hin hd
    rw [hmem]
    rcases hd with hd | hd
    · exact ⟨hin, s, hd, le_refl s, hse⟩
    · exact ⟨hin, e, hd, hse, le_refl e⟩
  · intro hd hr
    rw [hmem] at hr
    obtain ⟨-, d, hdd, h1, h2⟩ := hr
    rcases hd with hd | hd <;> rw [hd] at hdd <;>
      injection hdd with hdd <;> omega
  · intro hd hr
    rw [hmem] at hr
    obtain ⟨-, d, hdd, -, -⟩ := hr
    rw [hd] at hdd
    exact Option.noConfusion hdd

theorem C5_window_inclusivity_witness :
    ((3 : Int) ≤ 7
      ∧ LogRec.mk (some 1) (some 1) "Math" "A" 30 (some 3) "" ∈
          [LogRec.mk (some 1) (some 1) "Math" "A" 30 (some 3) ""]
      ∧ (LogRec.mk (some 1) (some 1) "Math" "A" 30 (some 3) "").date = some 3)
    ∧ LogRec.mk (some 1) (some 1) "Math" "A" 30 (some 3) "" ∈
        logs_in_range [LogRec.mk (some 1) (some 1) "Math" "A" 30 (some 3) ""] 3 7 :=
  ⟨⟨by decide, by decide, by decide⟩,
    (C5_window_inclusivity
        [LogRec.mk (some 1) (some 1) "Math" "A" 30 (some 3) ""] 3 7
        (LogRec.mk (some 1) (some 1) "Math" "A" 30 (some 3) "")).2.1
      (by decide) (by decide) (Or.inl (by decide))⟩

/-! ### Lemmas for the id discipline -/

theorem init_le_foldl_max : ∀ (l : List Int) (a : Int), a ≤ l.foldl max a := by
  intro l
  induction l with
  | nil => intro a; exact le_refl a
  | cons b bs ih =>
      intro a
      exact le_trans (le_max_left a b) (ih (max a b))

theorem mem_le_foldl_max : ∀ (as : List Int) (a x : Int), x ∈ a :: as →
    x ≤ as.foldl max a := by
  intro as
  induction as with
  | nil =>
      intro a x hx
      rcases List.mem_singleton.mp hx with rfl
      exact le_refl x
  | cons b bs ih =>
      intro a x hx
      show x ≤ bs.foldl max (max a b)
      rcases List.mem_cons.mp hx with rfl | hx
      · exact le_trans (le_max_left x b) (init_le_foldl_max bs (max x b))
      · rcases List.mem_cons.mp hx with rfl | hx
        · exact le_trans (le_max_right a x) (init_le_foldl_max bs (max a x))
        · exact ih (max a b) x (List.mem_cons_of_mem _ hx)

/-- C4 (counterexample): auto-assigned ids are not monotonically unique
across deletions — starting from an empty collection, two appends assign
1 then 2, deleting the row with id 2 and appending again assigns 2 a
second time. -/
theorem C4_next_id_counterexample :
    (pyAppend (pyAppend []).1).2 = 2
      ∧ pyDelete (pyAppend (pyAppend []).1).1 2 = [1]
      ∧ (pyAppend (pyDelete (pyAppend (pyAppend []).1).1 2)).2 = 2 := by
  decide

/-- C4 (amended): every append assigns `1 + max(existing ids)` — `1` on an
empty collection — and the assigned id strictly exceeds every id present
at the time, so ids never repeat across any sequence of appends with no
deletions; after a deletion of the row carrying the maximal id, a later
append can re-assign that id. -/
theorem C4_next_id (ids : List Int) :
    (pyAppend ids).2 = nextId ids
    ∧ (ids = [] → (pyAppend ids).2 = 1)
    ∧ (∀ a as, ids = a :: as → (pyAppend ids).2 = as.foldl max a + 1)
    ∧ (∀ x ∈ ids, x < (pyAppend ids).2) := by
  refine ⟨rfl, ?_, ?_, ?_⟩
  · rintro rfl
    rfl
  · rintro a as rfl
    rfl
  · intro x hx
    cases ids with
    | nil => exact absurd hx (List.not_mem_nil x)
    | cons a as =>
        show x < as.foldl max a + 1
        have := mem_le_foldl_max as a x hx
        omega

theorem C4_next_id_witness :
    (((5 : Int) ∈ [(5 : Int), 3] ∧ (pyAppend [(5 : Int), 3]).2 = 6)
      ∧ ([(5 : Int), 3] = 5 :: [3] ∧ (pyAppend [(5 : Int), 3]).2 = [(3 : Int)].foldl max 5 + 1))
      ∧ (([] : List Int) = [] ∧ (pyAppend ([] : List Int)).2 = 1) :=
  ⟨⟨⟨by decide, by decide⟩,
    ⟨rfl, (C4_next_id [5, 3]).2.2.1 5 [3] rfl⟩⟩,
    ⟨rfl, (C4_next_id []).2.1 rfl⟩⟩

/-! ### Lemmas about the staff-breakdown dictionary -/

theorem any_key_iff (l : List (String × Int)) (n : String) :
    l.any (fun p => p.1 == n) = true ↔ n ∈ dictKeys l := by
  constructor
  · intro h
    obtain ⟨p, hp, he⟩ := List.any_eq_true.mp h
    exact List.mem_map.mpr ⟨p, hp, beq_iff_eq.mp he⟩
  · intro h
    obtain ⟨p, hp, he⟩ := List.mem_map.mp h
    exact List.any_eq_true.mpr ⟨p, hp, beq_iff_eq.mpr he⟩

theorem dictKeys_bumpKey (l : List (String × Int)) (k : String) (m : Int) :
    dictKeys (bumpKey l k m) = dictKeys l := by
  induction l with
  | nil => rfl
  | cons p t ih =>
      by_cases h : (p.1 == k) = true
      · simp [bumpKey, dictKeys, h] at ih ⊢
        exact ih
      · simp [bumpKey, dictKeys, h] at ih ⊢
        exact ih

theorem dictGet_bumpKey_same (l : List (String × Int)) (k : String) (m : Int)
    (hk : k ∈ dictKeys l) : dictGet (bumpKey l k m) k = dictGet l k + m := by
  induction l with
  | nil => exact absurd hk (List.not_mem_nil k)
  | cons p t ih =>
      by_cases h : (p.1 == k) = true
      · simp [bumpKey, dictGet, h]
      · have hkt : k ∈ dictKeys t := by
          rcases List.mem_cons.mp hk with h1 | h1
          · exact absurd (beq_iff_eq.mpr h1.symm) h
          · exact h1
        simp [bumpKey, dictGet, h]
        exact ih hkt

theorem dictGet_bumpKey_other (l : List (String × Int)) (k1 k2 : String)
    (m : Int) (hne : k1 ≠ k2) : dictGet (bumpKey l k2 m) k1 = dictGet l k1 := by
  induction l with
  | nil => rfl
  | cons p t ih =>
      by_cases h : (p.1 == k2) = true
      · have hp1 : (p.1 == k1) = false := by
          rw [beq_iff_eq.mp h]
          exact beq_false_of_ne (fun hh => hne hh.symm)
        simp [bumpKey, dictGet, h, hp1]
        exact ih
      · by_cases h1 : (p.1 == k1) = true
        · simp [bumpKey, dictGet, h, h1]
        · simp [bumpKey, dictGet, h, h1]
          exact ih

theorem bumpKey_absent (l : List (String × Int)) (k : String) (m : Int)
    (hk : k ∉ dictKeys l) : bumpKey l k m = l := by
  induction l with
  | nil => rfl
  | cons p t ih =>
      have h1 : (p.1 == k) = false := by
        apply beq_false_of_ne
        intro hh
        exact hk (List.mem_cons.mpr (Or.inl hh.symm))
      have h2 : k ∉ dictKeys t := fun hh => hk (List.mem_cons_of_mem _ hh)
      simp [bumpKey, h1]
      exact ih h2

theorem sumValues_cons (p : String × Int) (t : List (String × Int)) :
    sumValues (p :: t) = p.2 + sumValues t := by
  simp [sumValues]

theorem sumValues_bumpKey (l : List (String × Int)) (k : String) (m : Int)
    (hnd : (dictKeys l).Nodup) (hk : k ∈ dictKeys l) :
    sumValues (bumpKey l k m) = sumValues l + m := by
  induction l with
  | nil => exact absurd hk (List.not_mem_nil k)
  | cons p t ih =>
      have hnd2 : (dictKeys t).Nodup := (List.nodup_cons.mp hnd).2
      have hpt : p.1 ∉ dictKeys t := (List.nodup_cons.mp hnd).1
      by_cases h : (p.1 == k) = true
      · have hkabs : k ∉ dictKeys t := by
          rw [← beq_iff_eq.mp h]
          exact hpt
        show sumValues ((if p.1 == k then (p.1, p.2 + m) else p) :: bumpKey t k m) = _
        rw [if_pos h, sumValues_cons, bumpKey_absent t k m hkabs, sumValues_cons]
        ring
      · have hkt : k ∈ dictKeys t := by
          rcases List.mem_cons.mp hk with h1 | h1
          · exact absurd (beq_iff_eq.mpr h1.symm) h
          · exact h1
        show sumValues ((if p.1 == k then (p.1, p.2 + m) else p) :: bumpKey t k m) = _
        rw [if_neg (by simp [h]), sumValues_cons, ih hnd2 hkt, sumValues_cons]
        ring

theorem dictGet_all_zero (l : List (String × Int)) (k : String)
    (h : ∀ p ∈ l, p.2 = 0) : dictGet l k = 0 := by
  induction l with
  | nil => rfl
  | cons p t ih =>
      show (if p.1 == k then p.2 else dictGet t k) = 0
      by_cases hp : (p.1 == k) = true
      · rw [if_pos hp]
        exact h p (List.mem_cons_self _ _)
      · rw [if_neg hp]
        exact ih (fun q hq => h q (List.mem_cons_of_mem _ hq))

theorem sumValues_all_zero (l : List (String × Int))
    (h : ∀ p ∈ l, p.2 = 0) : sumValues l = 0 := by
  induction l with
  | nil => rfl
  | cons p t ih =>
      rw [sumValues_cons, h p (List.mem_cons_self _ _),
        ih (fun q hq => h q (List.mem_cons_of_mem _ hq))]
      norm_num

theorem pyDictInit_spec : ∀ (names : List String) (acc : List (String × Int)),
    (∀ p ∈ acc, p.2 = 0) → (dictKeys acc).Nodup →
      (∀ p ∈ names.foldl initStep acc, p.2 = 0)
      ∧ (dictKeys (names.foldl initStep acc)).Nodup
      ∧ (∀ k, k ∈ dictKeys (names.foldl initStep acc) ↔
          k ∈ dictKeys acc ∨ k ∈ names) := by
  intro names
  induction names with
  | nil =>
      intro acc hv hn
      exact ⟨hv, hn, fun k => by simp⟩
  | cons n ns ih =>
      intro acc hv hn
      simp only [List.foldl_cons]
      by_cases h : acc.any (fun p => p.1 == n) = true
      · have hstep : initStep acc n = acc := by rw [initStep, if_pos h]
        rw [hstep]
        obtain ⟨a1, a2, a3⟩ := ih acc hv hn
        refine ⟨a1, a2, fun k => ?_⟩
        rw [a3 k]
        have hmem : n ∈ dictKeys acc := (any_key_iff acc n).mp h
        constructor
        · rintro (h1 | h1)
          · exact Or.inl h1
          · exact Or.inr (List.mem_cons_of_mem _ h1)
        · rintro (h1 | h1)
          · exact Or.inl h1
          · rcases List.mem_cons.mp h1 with rfl | h1
            · exact Or.inl hmem
            · exact Or.inr h1
      · have hstep : initStep acc n = acc ++ [(n, 0)] := by rw [initStep, if_neg h]
        rw [hstep]
        have hv2 : ∀ p ∈ acc ++ [(n, 0)], p.2 = 0 := by
          intro p hp
          rcases List.mem_append.mp hp with hp | hp
          · exact hv p hp
          · rcases List.mem_singleton.mp hp with rfl
            rfl
        have hkeys : dictKeys (acc ++ [(n, 0)]) = dictKeys acc ++ [n] := by
          simp [dictKeys]
        have hn2 : (dictKeys (acc ++ [(n, 0)])).Nodup := by
          rw [hkeys, List.nodup_append]
          refine ⟨hn, List.nodup_singleton n, ?_⟩
          intro x hx hx1
          rcases List.mem_singleton.mp hx1 with rfl
          exact h ((any_key_iff acc x).mpr hx)
        obtain ⟨a1, a2, a3⟩ := ih (acc ++ [(n, 0)]) hv2 hn2
        refine ⟨a1, a2, fun k => ?_⟩
        rw [a3 k, hkeys]
        constructor
        · rintro (h1 | h1)
          · rcases List.mem_append.mp h1 with h2 | h2
            · exact Or.inl h2
            · rcases List.mem_singleton.mp h2 with rfl
              exact Or.inr (List.mem_cons_self _ _)
          · exact Or.inr (List.mem_cons_of_mem _ h1)
        · rintro (h1 | h1)
          · exact Or.inl (List.mem_append.mpr (Or.inl h1))
          · rcases List.mem_cons.mp h1 with rfl | h2
            · exact Or.inl (List.mem_append.mpr (Or.inr (List.mem_singleton.mpr rfl)))
            · exact Or.inr h2

theorem pyDictInit_zero (names : List String) :
    ∀ p ∈ pyDictInit names, p.2 = 0 :=
  (pyDictInit_spec names [] (by intro p hp; cases hp) List.nodup_nil).1

theorem pyDictInit_nodup (names : List String) :
    (dictKeys (pyDictInit names)).Nodup :=
  (pyDictInit_spec names [] (by intro p hp; cases hp) List.nodup_nil).2.1

theorem pyDictInit_keys (names : List String) (k : String) :
    k ∈ dictKeys (pyDictInit names) ↔ k ∈ names := by
  show k ∈ dictKeys (List.foldl initStep [] names) ↔ k ∈ names
  rw [(pyDictInit_spec names [] (by intro p hp; cases hp) List.nodup_nil).2.2 k]
  simp [dictKeys]

theorem dictKeys_bdStep (acc : List (String × Int)) (r : LogRec) :
    dictKeys (bdStep acc r) = dictKeys acc := by
  rw [bdStep]
  by_cases h : acc.any (fun p => p.1 == r.staff) = true
  · rw [if_pos h, dictKeys_bumpKey]
  · rw [if_neg h]

theorem dictKeys_foldl_bdStep : ∀ (rows : List LogRec) (acc : List (String × Int)),
    dictKeys (rows.foldl bdStep acc) = dictKeys acc := by
  intro rows
  induction rows with
  | nil => intro acc; rfl
  | cons r rows ih =>
      intro acc
      simp only [List.foldl_cons]
      rw [ih (bdStep acc r), dictKeys_bdStep]

theorem minutesWhere_nil (p : LogRec → Bool) : minutesWhere [] p = 0 := rfl

theorem minutesWhere_cons (r : LogRec) (rows : List LogRec) (p : LogRec → Bool) :
    minutesWhere (r :: rows) p
      = (if p r then r.minutes else 0) + minutesWhere rows p := by
  by_cases h : p r = true
  · simp [minutesWhere, List.filter_cons, h]
  · simp [minutesWhere, List.filter_cons, h]

theorem dictGet_foldl_bdStep : ∀ (rows : List LogRec) (acc : List (String × Int))
    (k : String), k ∈ dictKeys acc →
    dictGet (rows.foldl bdStep acc) k
      = dictGet acc k + minutesWhere rows (fun r => r.staff == k) := by
  intro rows
  induction rows with
  | nil =>
      intro acc k _
      rw [minutesWhere_nil]
      norm_num
  | cons r rows ih =>
      intro acc k hk
      simp only [List.foldl_cons]
      have hk2 : k ∈ dictKeys (bdStep acc r) := by rw [dictKeys_bdStep]; exact hk
      rw [ih (bdStep acc r) k hk2, minutesWhere_cons]
      have hstep : dictGet (bdStep acc r) k
          = dictGet acc k + (if r.staff == k then r.minutes else 0) := by
        rw [bdStep]
        by_cases hrk : (r.staff == k) = true
        · have heq : r.staff = k := beq_iff_eq.mp hrk
          have hin : acc.any (fun p => p.1 == r.staff) = true := by
            rw [any_key_iff, heq]
            exact hk
          rw [if_pos hin, if_pos hrk, heq]
          exact dictGet_bumpKey_same acc k r.minutes hk
        · rw [if_neg hrk]
          have hne : k ≠ r.staff := fun hh => hrk (beq_iff_eq.mpr hh.symm)
          by_cases hin : acc.any (fun p => p.1 == r.staff) = true
          · rw [if_pos hin, dictGet_bumpKey_other acc k r.staff r.minutes hne]
            norm_num
          · rw [if_neg hin]
            norm_num
      rw [hstep]
      ring

theorem sumValues_foldl_bdStep : ∀ (rows : List LogRec) (acc : List (String × Int)),
    (dictKeys acc).Nodup →
    sumValues (rows.foldl bdStep acc)
      = sumValues acc + minutesWhere rows (fun r => decide (r.staff ∈ dictKeys acc)) := by
  intro rows
  induction rows with
  | nil =>
      intro acc _
      rw [minutesWhere_nil]
      norm_num
  | cons r rows ih =>
      intro acc hnd
      simp only [List.foldl_cons]
      have hnd2 : (dictKeys (bdStep acc r)).Nodup := by
        rw [dictKeys_bdStep]; exact hnd
      rw [ih (bdStep acc r) hnd2, minutesWhere_cons]
      have hkeys : dictKeys (bdStep acc r) = dictKeys acc := dictKeys_bdStep acc r
      rw [hkeys]
      have hstep : sumValues (bdStep acc r)
          = sumValues acc + (if decide (r.staff ∈ dictKeys acc) then r.minutes else 0) := by
        rw [bdStep]
        by_cases hin : r.staff ∈ dictKeys acc
        · rw [if_pos ((any_key_iff acc r.staff).mpr hin), if_pos (by simp [hin])]
          exact sumValues_bumpKey acc r.staff r.minutes hnd hin
        · rw [if_neg (fun hh => hin ((any_key_iff acc r.staff).mp hh)),
            if_neg (by simp [hin])]
          norm_num
      rw [hstep]
      ring

theorem minutesWhere_congr (l : List LogRec) (p q : LogRec → Bool)
    (h : ∀ r ∈ l, p r = q r) : minutesWhere l p = minutesWhere l q := by
  induction l with
  | nil => rfl
  | cons r rows ih =>
      rw [minutesWhere_cons, minutesWhere_cons, h r (List.mem_cons_self _ _),
        ih (fun x hx => h x (List.mem_cons_of_mem _ hx))]

theorem minutesWhere_split (l : List LogRec) (p : LogRec → Bool) :
    (l.map (fun r => r.minutes)).sum
      = minutesWhere l p + minutesWhere l (fun r => !(p r)) := by
  induction l with
  | nil => rfl
  | cons r rows ih =>
      rw [List.map_cons, List.sum_cons, minutesWhere_cons, minutesWhere_cons, ih]
      by_cases h : p r = true
      · simp only [h, Bool.not_true, if_pos, if_neg]
        simp
        ring
      · simp only [h]
        simp
        ring

theorem minutesWhere_all_false (l : List LogRec) (p : LogRec → Bool)
    (h : ∀ r ∈ l, p r = false) : minutesWhere l p = 0 := by
  induction l with
  | nil => rfl
  | cons r rows ih =>
      rw [minutesWhere_cons, h r (List.mem_cons_self _ _),
        ih (fun x hx => h x (List.mem_cons_of_mem _ hx))]
      norm_num

theorem minutesWhere_nonneg (l : List LogRec) (p : LogRec → Bool)
    (h : ∀ r ∈ l, 0 ≤ r.minutes) : 0 ≤ minutesWhere l p := by
  induction l with
  | nil => exact le_refl 0
  | cons r rows ih =>
      rw [minutesWhere_cons]
      have h1 : 0 ≤ (if p r then r.minutes else 0) := by
        by_cases hp : p r = true
        · rw [if_pos hp]
          exact h r (List.mem_cons_self _ _)
        · rw [if_neg hp]
      have h2 := ih (fun x hx => h x (List.mem_cons_of_mem _ hx))
      omega

theorem mem_matching_mem_logs (logs : List LogRec) (sid : Int) (subj : String)
    (s e : Int) (r : LogRec) (h : r ∈ matchingLogs logs sid subj s e) :
    r ∈ logs := by
  rw [matchingLogs, List.mem_filter] at h
  rw [logs_in_range, List.mem_filter] at h
  exact h.1.1

theorem sumValues_breakdown (logs : List LogRec) (sid : Int) (subj : String)
    (s e : Int) (roster : List String) :
    sumValues (staff_breakdown logs sid subj s e roster)
      = minutesWhere (matchingLogs logs sid subj s e)
          (fun r => decide (r.staff ∈ roster)) := by
  have hc : minutesWhere (matchingLogs logs sid subj s e)
      (fun r => decide (r.staff ∈ dictKeys (pyDictInit roster)))
      = minutesWhere (matchingLogs logs sid subj s e)
          (fun r => decide (r.staff ∈ roster)) := by
    apply minutesWhere_congr
    intro r _
    by_cases h : r.staff ∈ roster
    · simp [h, pyDictInit_keys]
    · simp [h, pyDictInit_keys]
  rw [staff_breakdown, sumValues_foldl_bdStep _ _ (pyDictInit_nodup roster),
    sumValues_all_zero _ (pyDictInit_zero roster), hc]
  norm_num

/-- C2: the sum of the values of `staff_breakdown` plus the minutes of the
matching rows whose staff is not in the roster equals `student_minutes`
for the same arguments; hence the two agree when every matching row's
staff is rostered, and (minutes being non-negative, as the data model
requires) the breakdown sum never exceeds the total. -/
theorem C2_breakdown_sums_to_total (logs : List LogRec) (sid : Int)
    (subj : String) (s e : Int) (roster : List String) :
    sumValues (staff_breakdown logs sid subj s e roster)
        + minutesWhere (matchingLogs logs sid subj s e)
            (fun r => !(decide (r.staff ∈ roster)))
      = student_minutes logs sid subj s e
    ∧ ((∀ r ∈ matchingLogs logs sid subj s e, r.staff ∈ roster) →
        sumValues (staff_breakdown logs sid subj s e roster)
          = student_minutes logs sid subj s e)
    ∧ ((∀ r ∈ logs, 0 ≤ r.minutes) →
        sumValues (staff_breakdown logs sid subj s e roster)
          ≤ student_minutes logs sid subj s e) := by
  have hmain := sumValues_breakdown logs sid subj s e roster
  have hsplit := minutesWhere_split (matchingLogs logs sid subj s e)
    (fun r => decide (r.staff ∈ roster))
  have hconj1 : sumValues (staff_breakdown logs sid subj s e roster)
      + minutesWhere (matchingLogs logs sid subj s e)
          (fun r => !(decide (r.staff ∈ roster)))
      = student_minutes logs sid subj s e := by
    rw [hmain, student_minutes, hsplit]
  refine ⟨hconj1, ?_, ?_⟩
  · intro hall
    have h0 : minutesWhere (matchingLogs logs sid subj s e)
        (fun r => !(decide (r.staff ∈ roster))) = 0 := by
      apply minutesWhere_all_false
      intro r hr
      simp [hall r hr]
    omega
  · intro hnn
    have h0 : 0 ≤ minutesWhere (matchingLogs logs sid subj s e)
        (fun r => !(decide (r.staff ∈ roster))) := by
      apply minutesWhere_nonneg
      intro r hr
      exact hnn r (mem_matching_mem_logs logs sid subj s e r hr)
    omega

theorem C2_breakdown_sums_to_total_witness :
    ((∀ r ∈ matchingLogs
          [LogRec.mk (some 1) (some 1) "Math" "A" 30 (some 5) "",
           LogRec.mk (some 2) (some 1) "Math" "B" 20 (some 5) ""] 1 "Math" 0 10,
        r.staff ∈ ["A", "B"])
      ∧ sumValues (staff_breakdown
            [LogRec.mk (some 1) (some 1) "Math" "A" 30 (some 5) "",
             LogRec.mk (some 2) (some 1) "Math" "B" 20 (some 5) ""]
            1 "Math" 0 10 ["A", "B"])
          = student_minutes
              [LogRec.mk (some 1) (some 1) "Math" "A" 30 (some 5) "",
               LogRec.mk (some 2) (some 1) "Math" "B" 20 (some 5) ""] 1 "Math" 0 10)
    ∧ ((∀ r ∈ [LogRec.mk (some 1) (some 1) "Math" "A" 30 (some 5) "",
               LogRec.mk (some 2) (some 1) "Math" "B" 20 (some 5) ""],
          0 ≤ r.minutes)
      ∧ sumValues (staff_breakdown
            [LogRec.mk (some 1) (some 1) "Math" "A" 30 (some 5) "",
             LogRec.mk (some 2) (some 1) "Math" "B" 20 (some 5) ""]
            1 "Math" 0 10 ["A"])
          ≤ student_minutes
              [LogRec.mk (some 1) (some 1) "Math" "A" 30 (some 5) "",
               LogRec.mk (some 2) (some 1) "Math" "B" 20 (some 5) ""] 1 "Math" 0 10) :=
  ⟨⟨by decide,
    (C2_breakdown_sums_to_total
        [LogRec.mk (some 1) (some 1) "Math" "A" 30 (some 5) "",
         LogRec.mk (some 2) (some 1) "Math" "B" 20 (some 5) ""]
        1 "Math" 0 10 ["A", "B"]).2.1 (by decide)⟩,
   ⟨by decide,
    (C2_breakdown_sums_to_total
        [LogRec.mk (some 1) (some 1) "Math" "A" 30 (some 5) "",
         LogRec.mk (some 2) (some 1) "Math" "B" 20 (some 5) ""]
        1 "Math" 0 10 ["A"]).2.2 (by decide)⟩⟩

/-- C7: `student_minutes` is total (never fails), returns 0 when no row
matches or the window filter leaves nothing, and is non-negative whenever
the log collection's minutes are non-negative, as the data model's
`minutes >= 0` invariant guarantees. -/
theorem C7_total_minutes_nonneg (logs : List LogRec) (sid : Int)
    (subj : String) (s e : Int) :
    ((∀ r ∈ logs, 0 ≤ r.minutes) → 0 ≤ student_minutes logs sid subj s e)
    ∧ (matchingLogs logs sid subj s e = [] →
        student_minutes logs sid subj s e = 0)
    ∧ (logs_in_range logs s e = [] →
        student_minutes logs sid subj s e = 0) := by
  refine ⟨?_, ?_, ?_⟩
  · intro h
    rw [student_minutes]
    apply List.sum_nonneg
    intro x hx
    obtain ⟨r, hr, rfl⟩ := List.mem_map.mp hx
    exact h r (mem_matching_mem_logs logs sid subj s e r hr)
  · intro h
    rw [student_minutes, h]
    rfl
  · intro h
    rw [student_minutes, matchingLogs, h]
    rfl

theorem C7_total_minutes_nonneg_witness :
    ((∀ r ∈ [LogRec.mk (some 1) (some 1) "Math" "A" 30 (some 5) ""],
        0 ≤ r.minutes)
      ∧ 0 ≤ student_minutes
          [LogRec.mk (some 1) (some 1) "Math" "A" 30 (some 5) ""] 1 "Math" 0 10)
    ∧ (matchingLogs [LogRec.mk (some 1) (some 1) "Math" "A" 30 (some 5) ""]
          2 "Math" 0 10 = []
      ∧ student_minutes [LogRec.mk (some 1) (some 1) "Math" "A" 30 (some 5) ""]
          2 "Math" 0 10 = 0) :=
  ⟨⟨by decide,
    (C7_total_minutes_nonneg
        [LogRec.mk (some 1) (some 1) "Math" "A" 30 (some 5) ""]
        1 "Math" 0 10).1 (by decide)⟩,
   ⟨by decide,
    (C7_total_minutes_nonneg
        [LogRec.mk (some 1) (some 1) "Math" "A" 30 (some 5) ""]
        2 "Math" 0 10).2.1 (by decide)⟩⟩

/-! ### Lemmas for staff-rename propagation -/

theorem filter_map_invariant {α : Type} (f : α → α) (p : α → Bool)
    (hp : ∀ a, p (f a) = p a) (l : List α) :
    (l.map f).filter p = (l.filter p).map f := by
  induction l with
  | nil => rfl
  | cons a t ih =>
      rw [List.map_cons, List.filter_cons, List.filter_cons, hp a]
      by_cases h : p a = true
      · rw [if_pos h, if_pos h, List.map_cons, ih]
      · rw [if_neg h, if_neg h, ih]

theorem matchingLogs_map_rename (old nw : String) (logs : List LogRec)
    (sid : Int) (subj : String) (s e : Int) :
    matchingLogs (logs.map (renameStaffRow old nw)) sid subj s e
      = (matchingLogs logs sid subj s e).map (renameStaffRow old nw) := by
  have hd : ∀ a : LogRec,
      (match (renameStaffRow old nw a).date with
        | some d => decide (s ≤ d ∧ d ≤ e)
        | none => false)
      = (match a.date with
        | some d => decide (s ≤ d ∧ d ≤ e)
        | none => false) := by
    intro a
    rw [renameStaffRow]
    by_cases h : (a.staff == old) = true
    · rw [if_pos h]
    · rw [if_neg h]
  have hm : ∀ a : LogRec,
      decide ((renameStaffRow old nw a).student_id = some sid ∧
          (renameStaffRow old nw a).subject = subj)
      = decide (a.student_id = some sid ∧ a.subject = subj) := by
    intro a
    rw [renameStaffRow]
    by_cases h : (a.staff == old) = true
    · rw [if_pos h]
    · rw [if_neg h]
  rw [matchingLogs, matchingLogs, logs_in_range, logs_in_range,
    filter_map_invariant _ _ hd, filter_map_invariant _ _ hm]

theorem minutesWhere_map_rename (old nw : String) (M : List LogRec)
    (hfresh : ∀ r ∈ M, r.staff ≠ nw) :
    minutesWhere (M.map (renameStaffRow old nw)) (fun r => r.staff == nw)
      = minutesWhere M (fun r => r.staff == old) := by
  induction M with
  | nil => rfl
  | cons r t ih =>
      rw [List.map_cons, minutesWhere_cons, minutesWhere_cons,
        ih (fun x hx => hfresh x (List.mem_cons_of_mem _ hx))]
      congr 1
      by_cases h : (r.staff == old) = true
      · simp [renameStaffRow, h]
      · have hnnw : (r.staff == nw) = false :=
          beq_false_of_ne (hfresh r (List.mem_cons_self _ _))
        simp [renameStaffRow, h, hnnw]

theorem rename_no_old (old nw : String) (h2 : old ≠ nw) (logs : List LogRec) :
    ∀ r ∈ logs.map (renameStaffRow old nw), r.staff ≠ old := by
  intro r hr
  obtain ⟨x, hx, rfl⟩ := List.mem_map.mp hr
  rw [renameStaffRow]
  by_cases h : (x.staff == old) = true
  · rw [if_pos h]
    exact fun hh => h2 hh.symm
  · rw [if_neg h]
    exact fun hh => h (beq_iff_eq.mpr hh)

theorem rename_preserves_rest (old nw : String) (logs : List LogRec) :
    (logs.map (renameStaffRow old nw)).map (fun r => { r with staff := "" })
      = logs.map (fun r => { r with staff := "" }) := by
  induction logs with
  | nil => rfl
  | cons r t ih =>
      rw [List.map_cons, List.map_cons, List.map_cons, ih]
      congr 1
      rw [renameStaffRow]
      split <;> rfl

theorem update_staff_logs (st : DBState) (sid : Int) (OLD nw : String)
    (hex : ∃ r ∈ st.staff, r.id = sid)
    (hall : ∀ r ∈ st.staff, r.id = sid → r.name = OLD)
    (h1 : OLD ≠ "") (h2 : OLD ≠ nw) :
    (update_staff_names_one st sid nw).logs
      = st.logs.map (renameStaffRow OLD nw) := by
  have hold : (((st.staff.reverse).find? (fun r => r.id == sid)).map
      (fun r => r.name)).getD "" = OLD := by
    obtain ⟨r0, hr0, hid⟩ := hex
    have hrev : ∃ x ∈ st.staff.reverse, (x.id == sid) = true :=
      ⟨r0, List.mem_reverse.mpr hr0, beq_iff_eq.mpr hid⟩
    have hsome : (st.staff.reverse.find? (fun r => r.id == sid)).isSome := by
      rw [List.find?_isSome]
      exact hrev
    obtain ⟨y, hy⟩ := Option.isSome_iff_exists.mp hsome
    have hyp := List.find?_some hy
    have hymem : y ∈ st.staff.reverse := List.mem_of_find?_eq_some hy
    have hyname : y.name = OLD :=
      hall y (List.mem_reverse.mp hymem) (beq_iff_eq.mp hyp)
    rw [hy]
    simp [hyname]
  have hcond : ((((st.staff.reverse).find? (fun r => r.id == sid)).map
      (fun r => r.name)).getD "" != ""
      && (((st.staff.reverse).find? (fun r => r.id == sid)).map
        (fun r => r.name)).getD "" != nw) = true := by
    rw [hold, Bool.and_eq_true, bne_iff_ne, bne_iff_ne]
    exact ⟨h1, h2⟩
  show (if _ && _ then st.logs.map (renameStaffRow _ nw) else st.logs) = _
  rw [hcond, if_pos rfl, hold]

theorem dictGet_breakdown (logs : List LogRec) (stu : Int) (subj : String)
    (a b : Int) (roster : List String) (k : String) (hk : k ∈ roster) :
    dictGet (staff_breakdown logs stu subj a b roster) k
      = minutesWhere (matchingLogs logs stu subj a b) (fun r => r.staff == k) := by
  rw [staff_breakdown,
    dictGet_foldl_bdStep _ _ k ((pyDictInit_keys roster k).mpr hk),
    dictGet_all_zero _ _ (pyDictInit_zero roster)]
  norm_num

/-- C3 (counterexample): when a session log already carries the new name
before the rename, the post-rename breakdown keyed by the new name merges
the two staff histories: renaming staff 1 from A to B with logs of 30
minutes under A and 20 under B yields 50 under B afterwards, not the 30
that A had summed to immediately before. -/
theorem C3_rename_propagation_counterexample :
    dictGet (staff_breakdown
        (update_staff_names_one
          (DBState.mk [StaffRec.mk 1 "A" "c"] []
            [LogRec.mk (some 1) (some 1) "Math" "A" 30 (some 5) "",
             LogRec.mk (some 2) (some 1) "Math" "B" 20 (some 5) ""])
          1 "B").logs
        1 "Math" 0 10 ["B"]) "B" = 50
    ∧ dictGet (staff_breakdown
        [LogRec.mk (some 1) (some 1) "Math" "A" 30 (some 5) "",
         LogRec.mk (some 2) (some 1) "Math" "B" 20 (some 5) ""]
        1 "Math" 0 10 ["A", "B"]) "A" = 30
    ∧ (50 : Int) ≠ 30 := by
  refine ⟨by decide, by decide, by decide⟩

/-- C3 (amended): after `update_staff_names` renames staff member `sid`
from OLD to NEW (OLD non-empty, OLD different from NEW, and every staff
row carrying id `sid` named OLD), no session-log row remains with staff
equal to OLD and the fields of log rows other than the staff field are
unchanged — both unconditionally, even when some log rows already carried
NEW; only the breakdown transfer needs the proviso: when no log row
already carried the staff name NEW, `staff_breakdown` keyed by NEW over
any window equals what OLD would have summed to immediately before the
rename. -/
theorem C3_rename_propagation (st : DBState) (sid : Int) (OLD NEW : String)
    (hex : ∃ r ∈ st.staff, r.id = sid)
    (hall : ∀ r ∈ st.staff, r.id = sid → r.name = OLD)
    (h1 : OLD ≠ "") (h2 : OLD ≠ NEW) :
    (∀ r ∈ (update_staff_names_one st sid NEW).logs, r.staff ≠ OLD)
    ∧ ((∀ r ∈ st.logs, r.staff ≠ NEW) →
        ∀ stu subj a b (roster1 roster2 : List String),
          OLD ∈ roster1 → NEW ∈ roster2 →
          dictGet (staff_breakdown (update_staff_names_one st sid NEW).logs
              stu subj a b roster2) NEW
            = dictGet (staff_breakdown st.logs stu subj a b roster1) OLD)
    ∧ (update_staff_names_one st sid NEW).logs.map (fun r => { r with staff := "" })
        = st.logs.map (fun r => { r with staff := "" }) := by
  have hlogs := update_staff_logs st sid OLD NEW hex hall h1 h2
  refine ⟨?_, ?_, ?_⟩
  · rw [hlogs]
    exact rename_no_old OLD NEW h2 st.logs
  · intro hfresh stu subj a b roster1 roster2 ho hn
    rw [hlogs, dictGet_breakdown _ _ _ _ _ _ _ hn,
      dictGet_breakdown _ _ _ _ _ _ _ ho, matchingLogs_map_rename]
    apply minutesWhere_map_rename
    intro r hr
    exact hfresh r (mem_matching_mem_logs st.logs stu subj a b r hr)
  · rw [hlogs]
    exact rename_preserves_rest OLD NEW st.logs

theorem C3_rename_propagation_witness :
    ((∃ r ∈ [StaffRec.mk 1 "A" "c"], r.id = 1)
      ∧ (∀ r ∈ [StaffRec.mk 1 "A" "c"], r.id = 1 → r.name = "A")
      ∧ ("A" : String) ≠ ""
      ∧ ("A" : String) ≠ "B")
    ∧ (∀ r ∈ (update_staff_names_one
          (DBState.mk [StaffRec.mk 1 "A" "c"] []
            [LogRec.mk (some 1) (some 1) "Math" "A" 30 (some 5) "",
             LogRec.mk (some 2) (some 1) "Math" "B" 20 (some 5) ""])
          1 "B").logs, r.staff ≠ "A")
    ∧ ((∀ r ∈ [LogRec.mk (some 1) (some 1) "Math" "A" 30 (some 5) ""],
          r.staff ≠ "B")
      ∧ dictGet (staff_breakdown
          (update_staff_names_one
            (DBState.mk [StaffRec.mk 1 "A" "c"] []
              [LogRec.mk (some 1) (some 1) "Math" "A" 30 (some 5) ""])
            1 "B").logs
          1 "Math" 0 10 ["B"]) "B"
        = dictGet (staff_breakdown
            [LogRec.mk (some 1) (some 1) "Math" "A" 30 (some 5) ""]
            1 "Math" 0 10 ["A"]) "A") :=
  ⟨⟨by decide, by decide, by decide, by decide⟩,
   (C3_rename_propagation
      (DBState.mk [StaffRec.mk 1 "A" "c"] []
        [LogRec.mk (some 1) (some 1) "Math" "A" 30 (some 5) "",
         LogRec.mk (some 2) (some 1) "Math" "B" 20 (some 5) ""])
      1 "A" "B" (by decide) (by decide) (by decide) (by decide)).1,
   ⟨by decide,
    (C3_rename_propagation
        (DBState.mk [StaffRec.mk 1 "A" "c"] []
          [LogRec.mk (some 1) (some 1) "Math" "A" 30 (some 5) ""])
        1 "A" "B" (by decide) (by decide) (by decide) (by decide)).2.1
      (by decide) 1 "Math" 0 10 ["A"] ["B"] (by decide) (by decide)⟩⟩

/-! ### Lemmas for the record-store mutations -/

theorem findRow?_eq_none_iff_all {α : Type} (p : α → Bool) :
    ∀ l : List α, findRow? p l = none ↔ ∀ x ∈ l, p x = false := by
  intro l
  induction l with
  | nil =>
      constructor
      · intro _ x hx
        cases hx
      · intro _
        rfl
  | cons a t ih =>
      constructor
      · intro h x hx
        by_cases hp : p a = true
        · rw [findRow?, if_pos hp] at h
          exact Option.noConfusion h
        · rw [findRow?, if_neg hp] at h
          have ht : findRow? p t = none := by
            cases hft : findRow? p t
            · rfl
            · rw [hft] at h
              exact Option.noConfusion h
          rcases List.mem_cons.mp hx with rfl | hx
          · cases hb : p x
            · rfl
            · exact absurd hb hp
          · exact ih.mp ht x hx
      · intro h
        have hpa : p a = false := h a (List.mem_cons_self _ _)
        rw [findRow?, if_neg (by rw [hpa]; exact Bool.false_ne_true),
          ih.mpr (fun x hx => h x (List.mem_cons_of_mem _ hx))]
        rfl

/-- C10: for a student id that no student row carries, `update_student`,
`update_student_subject` and `delete_student` are silent no-ops: they are
total (raise nothing) and leave the whole record store — staff, students
and logs — unchanged. -/
theorem C10_absent_id_noop (st : DBState) (sid : Int)
    (habs : ∀ s ∈ st.students, s.id ≠ sid) :
    (∀ nn goals, update_student st sid nn goals = st)
    ∧ (∀ subj, update_student_subject st sid subj = st)
    ∧ delete_student st sid = st := by
  have hfind : findRow? (fun r => r.id == sid) st.students = none := by
    rw [findRow?_eq_none_iff_all]
    intro x hx
    exact beq_false_of_ne (habs x hx)
  refine ⟨?_, ?_, ?_⟩
  · intro nn goals
    rw [update_student, hfind]
  · intro subj
    rw [update_student_subject, hfind]
  · rw [delete_student, hfind]

theorem C10_absent_id_noop_witness :
    (∀ s ∈ [StudentRec.mk 1 "A" "6th" "Math" 60 90 45], s.id ≠ 2)
    ∧ update_student
        (DBState.mk [StaffRec.mk 1 "N" "c"]
          [StudentRec.mk 1 "A" "6th" "Math" 60 90 45]
          [LogRec.mk (some 1) (some 1) "Math" "N" 30 (some 5) ""])
        2 (some "X") [("Math", 99)]
      = DBState.mk [StaffRec.mk 1 "N" "c"]
          [StudentRec.mk 1 "A" "6th" "Math" 60 90 45]
          [LogRec.mk (some 1) (some 1) "Math" "N" 30 (some 5) ""]
    ∧ update_student_subject
        (DBState.mk [StaffRec.mk 1 "N" "c"]
          [StudentRec.mk 1 "A" "6th" "Math" 60 90 45]
          [LogRec.mk (some 1) (some 1) "Math" "N" 30 (some 5) ""])
        2 "English"
      = DBState.mk [StaffRec.mk 1 "N" "c"]
          [StudentRec.mk 1 "A" "6th" "Math" 60 90 45]
          [LogRec.mk (some 1) (some 1) "Math" "N" 30 (some 5) ""]
    ∧ delete_student
        (DBState.mk [StaffRec.mk 1 "N" "c"]
          [StudentRec.mk 1 "A" "6th" "Math" 60 90 45]
          [LogRec.mk (some 1) (some 1) "Math" "N" 30 (some 5) ""])
        2
      = DBState.mk [StaffRec.mk 1 "N" "c"]
          [StudentRec.mk 1 "A" "6th" "Math" 60 90 45]
          [LogRec.mk (some 1) (some 1) "Math" "N" 30 (some 5) ""] :=
  ⟨by decide,
   (C10_absent_id_noop
      (DBState.mk [StaffRec.mk 1 "N" "c"]
        [StudentRec.mk 1 "A" "6th" "Math" 60 90 45]
        [LogRec.mk (some 1) (some 1) "Math" "N" 30 (some 5) ""])
      2 (by decide)).1 (some "X") [("Math", 99)],
   (C10_absent_id_noop
      (DBState.mk [StaffRec.mk 1 "N" "c"]
        [StudentRec.mk 1 "A" "6th" "Math" 60 90 45]
        [LogRec.mk (some 1) (some 1) "Math" "N" 30 (some 5) ""])
      2 (by decide)).2.1 "English",
   (C10_absent_id_noop
      (DBState.mk [StaffRec.mk 1 "N" "c"]
        [StudentRec.mk 1 "A" "6th" "Math" 60 90 45]
        [LogRec.mk (some 1) (some 1) "Math" "N" 30 (some 5) ""])
      2 (by decide)).2.2⟩

theorem matchingLogs_cons (r : LogRec) (logs : List LogRec) (sid : Int)
    (subj : String) (s e : Int) :
    matchingLogs (r :: logs) sid subj s e
      = if ((match r.date with
              | some d => decide (s ≤ d ∧ d ≤ e)
              | none => false)
            && decide (r.student_id = some sid ∧ r.subject = subj))
        then r :: matchingLogs logs sid subj s e
        else matchingLogs logs sid subj s e := by
  simp only [matchingLogs, logs_in_range]
  rw [List.filter_cons]
  by_cases h1 : (match r.date with
      | some d => decide (s ≤ d ∧ d ≤ e)
      | none => false) = true
  · rw [if_pos h1, List.filter_cons]
    by_cases h2 : decide (r.student_id = some sid ∧ r.subject = subj) = true
    · have hc : ((match r.date with
            | some d => decide (s ≤ d ∧ d ≤ e)
            | none => false)
          && decide (r.student_id = some sid ∧ r.subject = subj)) = true := by
        rw [h1, h2]
        rfl
      rw [if_pos h2, if_pos hc]
    · have hc : ¬ ((match r.date with
            | some d => decide (s ≤ d ∧ d ≤ e)
            | none => false)
          && decide (r.student_id = some sid ∧ r.subject = subj)) = true := by
        simp [Bool.and_eq_true, h2]
      rw [if_neg h2, if_neg hc]
  · have hxf : (match r.date with
        | some d => decide (s ≤ d ∧ d ≤ e)
        | none => false) = false := by
      cases hb : (match r.date with
          | some d => decide (s ≤ d ∧ d ≤ e)
          | none => false)
      · rfl
      · exact absurd hb h1
    have hc : ¬ ((match r.date with
          | some d => decide (s ≤ d ∧ d ≤ e)
          | none => false)
        && decide (r.student_id = some sid ∧ r.subject = subj)) = true := by
      rw [hxf]
      simp
    rw [if_neg h1, if_neg hc]

theorem matchingLogs_filter_other (logs : List LogRec) (sid osid : Int)
    (subj : String) (a b : Int) (hne : osid ≠ sid) :
    matchingLogs (logs.filter (fun r => !(r.student_id == some sid))) osid subj a b
      = matchingLogs logs osid subj a b := by
  induction logs with
  | nil => rfl
  | cons r t ih =>
      rw [List.filter_cons]
      by_cases hns : (!(r.student_id == some sid)) = true
      · rw [if_pos hns, matchingLogs_cons, matchingLogs_cons, ih]
      · rw [if_neg hns, ih, matchingLogs_cons]
        have hb : (r.student_id == some sid) = true := by
          cases hbb : r.student_id == some sid
          · rw [hbb] at hns
            exact absurd rfl hns
          · rfl
        have hsid : r.student_id = some sid := beq_iff_eq.mp hb
        have hm : decide (r.student_id = some osid ∧ r.subject = subj) = false := by
          apply decide_eq_false
          rintro ⟨hh, -⟩
          rw [hsid] at hh
          exact hne (Option.some_inj.mp hh).symm
        have hc : ¬ ((match r.date with
              | some d => decide (a ≤ d ∧ d ≤ b)
              | none => false)
            && decide (r.student_id = some osid ∧ r.subject = subj)) = true := by
          simp [Bool.and_eq_true, hm]
        rw [if_neg hc]

theorem minutesWhere_filter_split (p q : LogRec → Bool) : ∀ l : List LogRec,
    minutesWhere l p
      = minutesWhere (l.filter q) p
        + minutesWhere (l.filter (fun x => !(q x))) p := by
  intro l
  induction l with
  | nil => rfl
  | cons r t ih =>
      rw [minutesWhere_cons, List.filter_cons, List.filter_cons, ih]
      by_cases hq : q r = true
      · have hnq : ¬ ((!(q r)) = true) := by simp [hq]
        rw [if_pos hq, if_neg hnq, minutesWhere_cons]
        ring
      · have hqf : q r = false := by
          cases hb : q r
          · rfl
          · exact absurd hb hq
        have hpos : ((!(q r)) = true) := by simp [hqf]
        rw [if_neg hq, if_pos hpos, minutesWhere_cons]
        ring

theorem summaryGrand_eq_minutesWhere (logs : List LogRec) (s e : Int) :
    summaryGrand logs s e
      = minutesWhere logs (fun r =>
          match r.date with
          | some d => decide (s ≤ d ∧ d ≤ e)
          | none => false) := rfl

theorem delete_student_students_not_mem :
    ∀ (l : List StudentRec) (sid : Int),
      l.Pairwise (fun a b => a.id ≠ b.id) →
      ∀ x ∈ (match findRow? (fun r => r.id == sid) l with
             | some i => eraseAt l i
             | none => l), x.id ≠ sid := by
  intro l
  induction l with
  | nil =>
      intro sid _ x hx
      cases hx
  | cons a t ih =>
      intro sid hpw x hx
      obtain ⟨hhead, htail⟩ := List.pairwise_cons.mp hpw
      by_cases hp : (a.id == sid) = true
      · rw [findRow?, if_pos hp] at hx
        have hx2 : x ∈ t := hx
        have := hhead x hx2
        rw [← beq_iff_eq.mp hp]
        exact fun hh => this hh.symm
      · rw [findRow?, if_neg hp] at hx
        cases hft : findRow? (fun r => r.id == sid) t with
        | none =>
            rw [hft] at hx
            have hx2 : x ∈ a :: t := hx
            rcases List.mem_cons.mp hx2 with rfl | hx3
            · exact fun hh => hp (beq_iff_eq.mpr hh)
            · have := (findRow?_eq_none_iff_all _ t).mp hft x hx3
              exact fun hh => by rw [hh] at this; simp at this
        | some i =>
            rw [hft] at hx
            have hx2 : x ∈ a :: eraseAt t i := hx
            rcases List.mem_cons.mp hx2 with rfl | hx3
            · exact fun hh => hp (beq_iff_eq.mpr hh)
            · have hmem : x ∈ (match findRow? (fun r => r.id == sid) t with
                  | some i => eraseAt t i
                  | none => t) := by
                rw [hft]
                exact hx3
              exact ih sid htail x hmem

/-- C9: deleting a student leaves the session logs (and staff) untouched —
orphan rows persist; assuming distinct student ids, no remaining student
row carries the deleted id, and every remaining student's
`student_minutes` is unaffected by the orphan rows (computing it over the
logs with the orphan rows removed gives the same value); yet the
team-wide summary grand total still counts the orphan rows — it splits as
the non-orphan grand total plus the orphan minutes in the window. -/
theorem C9_delete_student_orphans (st : DBState) (sid : Int)
    (hpw : st.students.Pairwise (fun a b => a.id ≠ b.id)) :
    (delete_student st sid).logs = st.logs
    ∧ (∀ x ∈ (delete_student st sid).students, x.id ≠ sid)
    ∧ (∀ x ∈ (delete_student st sid).students, ∀ subj a b,
        student_minutes (delete_student st sid).logs x.id subj a b
          = student_minutes
              (st.logs.filter (fun r => !(r.student_id == some sid)))
              x.id subj a b)
    ∧ (∀ a b, summaryGrand (delete_student st sid).logs a b
        = summaryGrand (st.logs.filter (fun r => !(r.student_id == some sid))) a b
          + summaryGrand (st.logs.filter (fun r => r.student_id == some sid)) a b) := by
  have hlogs : (delete_student st sid).logs = st.logs := by
    rw [delete_student]
    cases findRow? (fun r => r.id == sid) st.students
    · rfl
    · rfl
  have hstu : ∀ x ∈ (delete_student st sid).students, x.id ≠ sid := by
    intro x hx
    apply delete_student_students_not_mem st.students sid hpw x
    rw [delete_student] at hx
    cases hf : findRow? (fun r => r.id == sid) st.students
    · rw [hf] at hx
      exact hx
    · rw [hf] at hx
      exact hx
  refine ⟨hlogs, hstu, ?_, ?_⟩
  · intro x hx subj a b
    rw [hlogs, student_minutes, student_minutes,
      matchingLogs_filter_other st.logs sid x.id subj a b (hstu x hx)]
  · intro a b
    rw [hlogs, summaryGrand_eq_minutesWhere, summaryGrand_eq_minutesWhere,
      summaryGrand_eq_minutesWhere]
    have hsplit := minutesWhere_filter_split
      (fun r : LogRec =>
        match r.date with
        | some d => decide (a ≤ d ∧ d ≤ b)
        | none => false)
      (fun r : LogRec => r.student_id == some sid) st.logs
    rw [hsplit]
    ring

theorem C9_delete_student_orphans_witness :
    ([StudentRec.mk 1 "A" "6th" "Math" 60 90 45,
      StudentRec.mk 2 "B" "7th" "Math" 60 90 45].Pairwise
        (fun a b => a.id ≠ b.id))
    ∧ (delete_student
        (DBState.mk [StaffRec.mk 1 "N" "c"]
          [StudentRec.mk 1 "A" "6th" "Math" 60 90 45,
           StudentRec.mk 2 "B" "7th" "Math" 60 90 45]
          [LogRec.mk (some 1) (some 1) "Math" "N" 30 (some 5) "",
           LogRec.mk (some 2) (some 2) "Math" "N" 20 (some 5) ""])
        2).logs
      = [LogRec.mk (some 1) (some 1) "Math" "N" 30 (some 5) "",
         LogRec.mk (some 2) (some 2) "Math" "N" 20 (some 5) ""]
    ∧ (∀ a b, summaryGrand (delete_student
          (DBState.mk [StaffRec.mk 1 "N" "c"]
            [StudentRec.mk 1 "A" "6th" "Math" 60 90 45,
             StudentRec.mk 2 "B" "7th" "Math" 60 90 45]
            [LogRec.mk (some 1) (some 1) "Math" "N" 30 (some 5) "",
             LogRec.mk (some 2) (some 2) "Math" "N" 20 (some 5) ""])
          2).logs a b
        = summaryGrand
            ([LogRec.mk (some 1) (some 1) "Math" "N" 30 (some 5) "",
              LogRec.mk (some 2) (some 2) "Math" "N" 20 (some 5) ""].filter
              (fun r => !(r.student_id == some 2))) a b
          + summaryGrand
              ([LogRec.mk (some 1) (some 1) "Math" "N" 30 (some 5) "",
                LogRec.mk (some 2) (some 2) "Math" "N" 20 (some 5) ""].filter
                (fun r => r.student_id == some 2)) a b) :=
  ⟨by decide,
   (C9_delete_student_orphans
      (DBState.mk [StaffRec.mk 1 "N" "c"]
        [StudentRec.mk 1 "A" "6th" "Math" 60 90 45,
         StudentRec.mk 2 "B" "7th" "Math" 60 90 45]
        [LogRec.mk (some 1) (some 1) "Math" "N" 30 (some 5) "",
         LogRec.mk (some 2) (some 2) "Math" "N" 20 (some 5) ""])
      2 (by decide)).1,
   (C9_delete_student_orphans
      (DBState.mk [StaffRec.mk 1 "N" "c"]
        [StudentRec.mk 1 "A" "6th" "Math" 60 90 45,
         StudentRec.mk 2 "B" "7th" "Math" 60 90 45]
        [LogRec.mk (some 1) (some 1) "Math" "N" 30 (some 5) "",
         LogRec.mk (some 2) (some 2) "Math" "N" 20 (some 5) ""])
      2 (by decide)).2.2.2⟩

/-- C6: the chart builder emits exactly one row per week window of the
month, in the same order as the (chronologically sorted) week windows;
each row carries the week's label and, for every subject of the fixed
enumeration, the number of students whose total minutes for that
student/subject/window reach their effective goal; with no students every
count is 0. -/
theorem C6_goal_chart_counts (logs : List LogRec)
    (students : List StudentRec) (year month : Int) :
    (goalChartRows logs students year month).length
        = (get_month_weeks_for year month).length
    ∧ (∀ (i : Nat) (w : Week), (get_month_weeks_for year month)[i]? = some w →
        (goalChartRows logs students year month)[i]?
          = some (w.label, SUBJECTS.map (fun subj =>
              (subj, students.countP (fun stu =>
                decide (safe_goal stu.toRow subj ≤
                  student_minutes logs stu.id subj w.start w.stop))))))
    ∧ (students = [] → ∀ row ∈ goalChartRows logs students year month,
        ∀ p ∈ row.2, p.2 = 0)
    ∧ (get_month_weeks_for year month).Pairwise (fun a b => a.start < b.start) := by
  refine ⟨?_, ?_, ?_, ?_⟩
  · rw [goalChartRows, List.length_map]
  · intro i w hw
    rw [goalChartRows, List.getElem?_map, hw, Option.map_some']
    have hcp : ∀ subj : String,
        (students.filter (fun stu =>
          decide (safe_goal stu.toRow subj ≤
            student_minutes logs stu.id subj w.start w.stop))).length
        = students.countP (fun stu =>
            decide (safe_goal stu.toRow subj ≤
              student_minutes logs stu.id subj w.start w.stop)) := by
      intro subj
      rw [List.countP_eq_length_filter]
    simp only [hcp]
  · rintro rfl row hrow p hp
    rw [goalChartRows] at hrow
    obtain ⟨w, hw, rfl⟩ := List.mem_map.mp hrow
    obtain ⟨subj, hsubj, rfl⟩ := List.mem_map.mp hp
    rfl
  · rw [get_month_weeks_eq]
    exact pairwise_weeksFrom _ _

theorem weeks_2024_jan_head :
    (get_month_weeks_for 2024 1)[0]? = some (mkWeek 19723) := by
  rw [get_month_weeks_eq]
  have h1 : (get_month_range_for 2024 1).1 = 19723 := by decide
  have h2 : (get_month_range_for 2024 1).2 = 19753 := by decide
  have h3 : weekday 19723 = 0 := by decide
  rw [h1, h2, h3]
  rw [weeksFrom_pos (by decide)]
  norm_num

theorem C6_goal_chart_counts_witness :
    (get_month_weeks_for 2024 1)[0]? = some (mkWeek 19723)
    ∧ (goalChartRows [] [StudentRec.mk 1 "A" "6th" "Math" 60 90 45] 2024 1)[0]?
        = some ((mkWeek 19723).label, SUBJECTS.map (fun subj =>
            (subj, [StudentRec.mk 1 "A" "6th" "Math" 60 90 45].countP
              (fun stu => decide (safe_goal stu.toRow subj ≤
                student_minutes [] stu.id subj (mkWeek 19723).start
                  (mkWeek 19723).stop))))) :=
  ⟨weeks_2024_jan_head,
   (C6_goal_chart_counts [] [StudentRec.mk 1 "A" "6th" "Math" 60 90 45]
      2024 1).2.1 0 (mkWeek 19723) weeks_2024_jan_head⟩
